import Mathlib

set_option maxHeartbeats 1000000

/-!
Shallow embedding of the zk-eigentrust trust-aggregation core.

Part 1 models `circuit/src/native.rs`: the fixed-capacity participant set,
opinions, the per-slot validity filter and the bounded power iteration of
`EigenTrustSet::converge`, together with `add_member` and `update_op`.
Rust panics (failed `assert!`, `Option::unwrap` on `None`) are modelled by
`Option.none` results.

Part 2 models `eigen-trust/src/peer/mod.rs`: the peer state, the neighbor
opinion collection `get_neighbor_opinions_at`, `global_trust_score_at` and
`calculate_local_opinions`.  The cryptographic helpers that live in the
missing `peer/opinion.rs` are taken as abstract parameters.
-/

/-- Capacity of the participant set, `NUM_NEIGHBOURS` in `native.rs`. -/
abbrev NUM_NEIGHBOURS : ℕ := 6

/-- Number of power-iteration rounds, `NUM_ITERATIONS` in `native.rs`. -/
abbrev NUM_ITERATIONS : ℕ := 20

/-- Initial score handed to a fresh member, `INITIAL_SCORE` in `native.rs`. -/
abbrev INITIAL_SCORE : ℕ := 1000

/-- Order of the BN254 (bn256) scalar field, the modulus of `halo2` `Fr`. -/
def bn254ScalarOrder : ℕ :=
  21888242871839275222246405745257275088548364400416034343698204186575808495617

/-- The scalar field `Fr` of `native.rs`, modelled as integers mod the BN254
scalar order. -/
abbrev Fr := ZMod bn254ScalarOrder

/-- Public keys are opaque in the set logic: `native.rs` only ever compares
them for equality and against `PublicKey::default()`.  We model them as
naturals. -/
abbrev PublicKey := ℕ

/-- The sentinel `PublicKey::default()`, marking a vacant slot. -/
def PK_NULL : PublicKey := 0

/-- EdDSA signature carried by an opinion; `native.rs` never reads it inside
`converge`, it is only stored.  `Signature::new` takes three field elements. -/
structure Signature where
  bigRx : Fr
  bigRy : Fr
  sigS : Fr

/-- An opinion: signature, message hash and a fixed-size score vector, as the
`Opinion` struct of `native.rs`. -/
structure Opinion where
  sig : Signature
  messageHash : Fr
  scores : Fin NUM_NEIGHBOURS → PublicKey × Fr

/-- The all-zero `Opinion::default()`. -/
def Opinion.defaultOp : Opinion :=
  { sig := ⟨0, 0, 0⟩, messageHash := 0, scores := fun _ => (PK_NULL, 0) }

/-- The `EigenTrustSet` state: the fixed slot array and the opinion map.
The Rust `HashMap<PublicKey, Opinion>` is modelled by its lookup function;
`converge` only ever queries and inserts by key, never iterates the map. -/
structure EigenTrustSet where
  set : Fin NUM_NEIGHBOURS → PublicKey × Fr
  ops : PublicKey → Option Opinion

/-- The fresh state `EigenTrustSet::new()`. -/
def EigenTrustSet.new : EigenTrustSet :=
  { set := fun _ => (PK_NULL, 0), ops := fun _ => none }

/-- Model of `EigenTrustSet::add_member`.  `none` models a panic: the
`assert!(pos.is_none())` on a duplicate key, or `first_available.unwrap()`
when no vacant slot exists. -/
def addMember (st : EigenTrustSet) (pk : PublicKey) : Option EigenTrustSet :=
  let pos := (List.finRange NUM_NEIGHBOURS).find? (fun i => decide ((st.set i).1 = pk))
  let firstAvailable :=
    (List.finRange NUM_NEIGHBOURS).find? (fun i => decide ((st.set i).1 = PK_NULL))
  match pos with
  | some _ => none
  | none =>
    match firstAvailable with
    | none => none
    | some index =>
      some { st with set := Function.update st.set index (pk, (INITIAL_SCORE : Fr)) }

/-- Model of `EigenTrustSet::update_op`.  `none` models the
`assert!(pos_from.is_some())` panic when the sender is not in the set. -/
def updateOp (st : EigenTrustSet) (sender : PublicKey) (op : Opinion) :
    Option EigenTrustSet :=
  match (List.finRange NUM_NEIGHBOURS).find? (fun i => decide ((st.set i).1 = sender)) with
  | none => none
  | some _ => some { st with ops := Function.update st.ops sender (some op) }

/-- The score-zeroing pass applied to one opinion at slot `i` inside the
filter: score `j` is kept exactly when `j ≠ i` and the key stored at score
slot `j` matches the current set entry `j`; otherwise it is zeroed.  This is
the `true_score` computation of `converge`. -/
def refilter (set : Fin NUM_NEIGHBOURS → PublicKey × Fr) (i : Fin NUM_NEIGHBOURS)
    (sc : Fin NUM_NEIGHBOURS → PublicKey × Fr) : Fin NUM_NEIGHBOURS → PublicKey × Fr :=
  fun j => ((sc j).1, if j ≠ i ∧ (set j).1 = (sc j).1 then (sc j).2 else 0)

/-- One slot of the validity filter at the start of `converge`.  For a vacant
slot the code asserts that no opinion is keyed under `PK_NULL` (panic — `none`
— otherwise).  For an occupied slot it unwraps the stored opinion (panic when
missing), rewrites its scores through `refilter`, and nullifies the slot when
the filtered scores sum to zero.  The rewritten opinion stays in the map even
when the slot is nullified. -/
def filterStep (st : EigenTrustSet) (i : Fin NUM_NEIGHBOURS) : Option EigenTrustSet :=
  let pk := (st.set i).1
  if pk = PK_NULL then
    match st.ops pk with
    | some _ => none
    | none => some st
  else
    match st.ops pk with
    | none => none
    | some opsI =>
      let newScores := refilter st.set i opsI.scores
      let scoreSum : Fr := ∑ j, (newScores j).2
      some { set := if scoreSum = 0 then Function.update st.set i (PK_NULL, 0) else st.set,
             ops := Function.update st.ops pk (some { opsI with scores := newScores }) }

/-- The filter run over a list of slots in order. -/
def filterChain (st : EigenTrustSet) (l : List (Fin NUM_NEIGHBOURS)) :
    Option EigenTrustSet :=
  l.foldlM filterStep st

/-- The whole validity pass of `converge`: slots `0, …, NUM_NEIGHBOURS - 1`
in order. -/
def filterAll (st : EigenTrustSet) : Option EigenTrustSet :=
  filterChain st (List.finRange NUM_NEIGHBOURS)

/-- The opinion used for slot `i` inside the iteration loop:
`self.ops.get(&pk).unwrap_or(&default_op)`. -/
def opAt (st : EigenTrustSet) (i : Fin NUM_NEIGHBOURS) : Opinion :=
  (st.ops (st.set i).1).getD Opinion.defaultOp

/-- One round of the power iteration of `converge`:
`new_s[i] = Σ_j distributions[j][i]` with
`distributions[j][i] = op_j.scores[i].1 * s[j]`. -/
def iterOnce (st : EigenTrustSet) (s : Fin NUM_NEIGHBOURS → Fr) :
    Fin NUM_NEIGHBOURS → Fr :=
  fun i => ∑ j, ((opAt st j).scores i).2 * s j

/-- The iterate `s_t` produced by the loop of `converge` on a (filtered)
state: `s_0[i] = set[i].1`, then `iterOnce` is applied `t` times. -/
def sIter (st : EigenTrustSet) : ℕ → (Fin NUM_NEIGHBOURS → Fr)
  | 0 => fun i => (st.set i).2
  | t + 1 => iterOnce st (sIter st t)

/-- Model of `EigenTrustSet::converge`: the filter pass (which mutates the
state) followed by `NUM_ITERATIONS` rounds of power iteration; returns both
the mutated state and the final vector.  `none` models a panic inside the
filter. -/
def convergeFull (st : EigenTrustSet) :
    Option (EigenTrustSet × (Fin NUM_NEIGHBOURS → Fr)) :=
  (filterAll st).map (fun st' => (st', sIter st' NUM_ITERATIONS))

/-- The score vector returned by `EigenTrustSet::converge`. -/
def converge (st : EigenTrustSet) : Option (Fin NUM_NEIGHBOURS → Fr) :=
  (convergeFull st).map Prod.snd

/-- Modelled from the spec, §4.4: the opinion `op_i` used by the recurrence —
the opinion of `set[i].pk`, where a vacant slot (`set[i].pk = PK_NULL`) is
treated as the all-zero default opinion. -/
def specOpAt (st : EigenTrustSet) (i : Fin NUM_NEIGHBOURS) : Opinion :=
  if (st.set i).1 = PK_NULL then Opinion.defaultOp
  else (st.ops (st.set i).1).getD Opinion.defaultOp

/-- Modelled from the spec, §4.4: one step of the claimed recurrence
`s_{t+1}[j] = Σ_i s_t[i] · op_i.scores[j].value`. -/
def specStep (st : EigenTrustSet) (s : Fin NUM_NEIGHBOURS → Fr) :
    Fin NUM_NEIGHBOURS → Fr :=
  fun j => ∑ i, s i * ((specOpAt st i).scores j).2

/-- Modelled from the spec, §4.4: the recurrence iterated from
`s_0[i] = set[i].score`. -/
def specScores (st : EigenTrustSet) : ℕ → (Fin NUM_NEIGHBOURS → Fr)
  | 0 => fun i => (st.set i).2
  | t + 1 => specStep st (specScores st t)

/-- One API call on an `EigenTrustSet`, for stating properties of call
sequences. -/
inductive Call where
  | add (pk : PublicKey)
  | upd (pk : PublicKey) (op : Opinion)
  | conv

/-- Effect of one call on the state.  `converge` mutates the state through
its filter pass and additionally returns the score vector, which `runCall`
discards. -/
def runCall (st : EigenTrustSet) : Call → Option EigenTrustSet
  | .add pk => addMember st pk
  | .upd pk op => updateOp st pk op
  | .conv => (convergeFull st).map Prod.fst

/-- Run a sequence of calls from the fresh state; `none` as soon as any call
panics. -/
def run (calls : List Call) : Option EigenTrustSet :=
  calls.foldlM runCall EigenTrustSet.new

/-! Part 2: the peer module `eigen-trust/src/peer/mod.rs`.

`PeerId` and the libp2p `PublicKey` are opaque (only equality is used);
epochs are `u64` wrappers.  The `f64` opinion values only flow through the
claims below opaquely (stored, compared to the literal `0.`, summed), so we
model them as rationals.  The functions `Opinion::verify` and
`Opinion::generate` live in `peer/opinion.rs`, which is not part of the
sources; they are taken as abstract parameters (`VerifyFn`, `GenFn`)
returning `Except`, matching the `Result` values that `mod.rs` unwraps. -/

/-- Maximum number of neighbors, `MAX_NEIGHBORS` in `peer/mod.rs`. -/
abbrev MAX_NEIGHBORS : ℕ := 256

/-- Opaque libp2p peer id. -/
abbrev PeerId := ℕ

/-- Opaque libp2p public key. -/
abbrev LPubKey := ℕ

/-- Epoch counter. -/
abbrev Epoch := ℕ

/-- The slice of the peer-side `Opinion<MAX_NEIGHBORS>` that `mod.rs`
reads: its epoch `k` and its `f64` score `op` (modelled as `ℚ`). -/
structure POpinion where
  k : Epoch
  op : ℚ

/-- Modelled from the spec, §4.2: `Opinion::empty()`, the all-zero opinion
used when a cache lookup misses (`peer/opinion.rs` is not in the sources). -/
def POpinion.empty : POpinion := { k := 0, op := 0 }

/-- The fields of the `Peer` struct that the claims touch.  The keypair,
KZG params and proving key are opaque; the abstract `VerifyFn` and `GenFn`
close over them. -/
structure PeerSt where
  neighbors : Fin MAX_NEIGHBORS → Option PeerId
  pubkeys : PeerId → Option LPubKey
  neighborScores : PeerId → Option ℕ
  cachedNeighborOp : PeerId × Epoch → Option POpinion
  cachedLocalOp : PeerId × Epoch → Option POpinion
  localPubKey : LPubKey

/-- Abstract model of `Opinion::verify` from the missing `peer/opinion.rs`:
arguments are the opinion, the prover pubkey and the verifier (local) pubkey;
the result is `Result<bool, EigenError>`. -/
abbrev VerifyFn := POpinion → LPubKey → LPubKey → Except Unit Bool

/-- Abstract model of `Opinion::generate` from the missing
`peer/opinion.rs`: arguments are the target pubkey, the epoch passed by the
caller (`k.next()`), the collected neighbor opinions and the normalized
score. -/
abbrev GenFn := LPubKey → Epoch → (Fin MAX_NEIGHBORS → ℚ) → ℚ → Except Unit POpinion

/-- Model of `Peer::get_neighbor_opinion`: the cached opinion or the empty
one. -/
def getNeighborOpinion (p : PeerSt) (key : PeerId × Epoch) : POpinion :=
  (p.cachedNeighborOp key).getD POpinion.empty

/-- One slot of the array built by `Peer::get_neighbor_opinions_at`: a vacant
slot contributes `0.`; an occupied slot looks up the neighbor pubkey
(`get_pub_key` unwraps — panic, `none`, when the neighbor was never
identified), unwraps the verification result (panic on `Err`), and keeps the
opinion value only when verification returned `true`. -/
def neighborOpSlot (vf : VerifyFn) (p : PeerSt) (k : Epoch) (i : Fin MAX_NEIGHBORS) :
    Option ℚ :=
  match p.neighbors i with
  | none => some 0
  | some peerId =>
    let opinion := getNeighborOpinion p (peerId, k)
    match p.pubkeys peerId with
    | none => none
    | some pubkeyP =>
      match vf opinion pubkeyP p.localPubKey with
      | .error _ => none
      | .ok res => some (if res then opinion.op else 0)

/-- Model of `Peer::get_neighbor_opinions_at`: the `neighbors.map(...)` array
construction; the whole call panics (`none`) when any slot panics. -/
def getNeighborOpinionsAt (vf : VerifyFn) (p : PeerSt) (k : Epoch) :
    Option (Fin MAX_NEIGHBORS → ℚ) :=
  if h : ∀ i, (neighborOpSlot vf p k i).isSome
  then some (fun i => (neighborOpSlot vf p k i).get (h i))
  else none

/-- Model of `Peer::global_trust_score_at`: the fold summing the collected
array. -/
def globalTrustScoreAt (vf : VerifyFn) (p : PeerSt) (k : Epoch) : Option ℚ :=
  (getNeighborOpinionsAt vf p k).map (fun opJi => ∑ i, opJi i)

/-- Model of `Peer::neighbors()`: the occupied slots in order. -/
def neighborsList (p : PeerSt) : List PeerId :=
  (List.finRange MAX_NEIGHBORS).filterMap (fun i => p.neighbors i)

/-- Model of `Peer::get_sum_of_scores`. -/
def getSumOfScores (p : PeerSt) : ℕ :=
  (neighborsList p).foldl (fun acc peerId => acc + (p.neighborScores peerId).getD 0) 0

/-- Model of `Peer::get_normalized_score` (`f64` division modelled on `ℚ`). -/
def getNormalizedScore (p : PeerSt) (score : ℕ) : ℚ :=
  (score : ℚ) / (getSumOfScores p : ℚ)

/-- One turn of the loop of `Peer::calculate_local_opinions`: read the local
raw score, normalize it, unwrap the neighbor pubkey (panic when the neighbor
was never identified), unwrap `Opinion::generate`, and cache the produced
opinion under `(peer_id, opinion.k)`. -/
def localOpStep (gen : GenFn) (k : Epoch) (opJi : Fin MAX_NEIGHBORS → ℚ)
    (st : PeerSt) (peerId : PeerId) : Option PeerSt :=
  let score := (st.neighborScores peerId).getD 0
  let normalizedScore := getNormalizedScore st score
  match st.pubkeys peerId with
  | none => none
  | some pubkey =>
    match gen pubkey (k + 1) opJi normalizedScore with
    | .error _ => none
    | .ok opinion =>
      some { st with
        cachedLocalOp := Function.update st.cachedLocalOp (peerId, opinion.k) (some opinion) }

/-- Model of `Peer::calculate_local_opinions`: collect the neighbor opinions
at epoch `k`, then loop over the neighbors generating and caching a local
opinion for each.  `none` models a panic anywhere inside. -/
def calculateLocalOpinions (vf : VerifyFn) (gen : GenFn) (p : PeerSt) (k : Epoch) :
    Option PeerSt :=
  (getNeighborOpinionsAt vf p k).bind fun opJi =>
    (neighborsList p).foldlM (localOpStep gen k opJi) p

/-! Helper lemmas about the filter pass. -/

theorem filterStep_null_inv {st st₂ : EigenTrustSet} {i : Fin NUM_NEIGHBOURS}
    (h : (st.set i).1 = PK_NULL) (hs : filterStep st i = some st₂) :
    st.ops PK_NULL = none ∧ st₂ = st := by
  unfold filterStep at hs
  rw [if_pos h, h] at hs
  cases hop : st.ops PK_NULL with
  | none => rw [hop] at hs; exact ⟨rfl, (Option.some_inj.mp hs).symm⟩
  | some op => rw [hop] at hs; cases hs

theorem filterStep_pos_inv {st st₂ : EigenTrustSet} {i : Fin NUM_NEIGHBOURS}
    (h : (st.set i).1 ≠ PK_NULL) (hs : filterStep st i = some st₂) :
    ∃ op, st.ops (st.set i).1 = some op ∧
      st₂ = { set := if (∑ j, (refilter st.set i op.scores j).2) = 0
                     then Function.update st.set i (PK_NULL, 0) else st.set,
              ops := Function.update st.ops (st.set i).1
                       (some { op with scores := refilter st.set i op.scores }) } := by
  unfold filterStep at hs
  rw [if_neg h] at hs
  cases hop : st.ops (st.set i).1 with
  | none => rw [hop] at hs; cases hs
  | some op =>
    rw [hop] at hs
    exact ⟨op, rfl, (Option.some_inj.mp hs).symm⟩

theorem filterStep_ops_nullkey {st st₂ : EigenTrustSet} {i : Fin NUM_NEIGHBOURS}
    (hs : filterStep st i = some st₂) : st₂.ops PK_NULL = st.ops PK_NULL := by
  by_cases h : (st.set i).1 = PK_NULL
  · rw [(filterStep_null_inv h hs).2]
  · obtain ⟨op, _, rfl⟩ := filterStep_pos_inv h hs
    exact Function.update_noteq (fun he => h he.symm) _ _

theorem filterStep_set_cases {st st₂ : EigenTrustSet} {i : Fin NUM_NEIGHBOURS}
    (hs : filterStep st i = some st₂) :
    (∀ m, st₂.set m = st.set m) ∨
      (st₂.set = Function.update st.set i (PK_NULL, 0) ∧ (st.set i).1 ≠ PK_NULL) := by
  by_cases h : (st.set i).1 = PK_NULL
  · rw [(filterStep_null_inv h hs).2]; exact Or.inl (fun _ => rfl)
  · obtain ⟨op, _, rfl⟩ := filterStep_pos_inv h hs
    by_cases hsum : (∑ j, (refilter st.set i op.scores j).2) = 0
    · exact Or.inr ⟨by simp [hsum], h⟩
    · exact Or.inl (fun m => by simp [hsum])

theorem filterStep_set_mono {st st₂ : EigenTrustSet} {i : Fin NUM_NEIGHBOURS}
    (hs : filterStep st i = some st₂) (m : Fin NUM_NEIGHBOURS) :
    st₂.set m = st.set m ∨ st₂.set m = (PK_NULL, 0) := by
  rcases filterStep_set_cases hs with h | ⟨h, _⟩
  · exact Or.inl (h m)
  · rw [h]
    by_cases hm : m = i
    · subst hm; exact Or.inr (Function.update_same _ _ _)
    · exact Or.inl (Function.update_noteq hm _ _)

theorem filterChain_cons (st : EigenTrustSet) (i : Fin NUM_NEIGHBOURS)
    (l : List (Fin NUM_NEIGHBOURS)) :
    filterChain st (i :: l) = (filterStep st i).bind (fun st₂ => filterChain st₂ l) := rfl

theorem filterChain_nil (st : EigenTrustSet) : filterChain st [] = some st := rfl

theorem filterChain_some_cons {st st' : EigenTrustSet} {i : Fin NUM_NEIGHBOURS}
    {l : List (Fin NUM_NEIGHBOURS)} (h : filterChain st (i :: l) = some st') :
    ∃ st₂, filterStep st i = some st₂ ∧ filterChain st₂ l = some st' := by
  rw [filterChain_cons] at h
  cases hstep : filterStep st i with
  | none => rw [hstep] at h; cases h
  | some st₂ => rw [hstep] at h; exact ⟨st₂, rfl, h⟩

theorem chain_set_mono {l : List (Fin NUM_NEIGHBOURS)} :
    ∀ {st st' : EigenTrustSet}, filterChain st l = some st' →
      ∀ m, st'.set m = st.set m ∨ st'.set m = (PK_NULL, 0) := by
  induction l with
  | nil => intro st st' h m; rw [filterChain_nil] at h; rw [← Option.some_inj.mp h]; exact Or.inl rfl
  | cons i l ih =>
    intro st st' h m
    obtain ⟨st₂, hstep, hrest⟩ := filterChain_some_cons h
    rcases ih hrest m with h2 | h2
    · rcases filterStep_set_mono hstep m with h1 | h1
      · exact Or.inl (h2.trans h1)
      · exact Or.inr (h2.trans h1)
    · exact Or.inr h2

theorem chain_ops_nullkey {l : List (Fin NUM_NEIGHBOURS)} :
    ∀ {st st' : EigenTrustSet}, filterChain st l = some st' →
      st'.ops PK_NULL = st.ops PK_NULL := by
  induction l with
  | nil => intro st st' h; rw [filterChain_nil] at h; rw [← Option.some_inj.mp h]
  | cons i l ih =>
    intro st st' h
    obtain ⟨st₂, hstep, hrest⟩ := filterChain_some_cons h
    exact (ih hrest).trans (filterStep_ops_nullkey hstep)

theorem chain_null_absent {l : List (Fin NUM_NEIGHBOURS)} :
    ∀ {st st' : EigenTrustSet}, filterChain st l = some st' →
      ∀ i ∈ l, (st.set i).1 = PK_NULL → st.ops PK_NULL = none := by
  induction l with
  | nil => intro st st' _ i hi; cases hi
  | cons k l ih =>
    intro st st' h i hi hnull
    obtain ⟨st₂, hstep, hrest⟩ := filterChain_some_cons h
    rcases List.mem_cons.mp hi with rfl | hmem
    · exact (filterStep_null_inv hnull hstep).1
    · have h2 : (st₂.set i).1 = PK_NULL := by
        rcases filterStep_set_mono hstep i with he | he
        · rw [he]; exact hnull
        · rw [he]
      rw [← filterStep_ops_nullkey hstep]
      exact ih hrest i hmem h2

theorem fixpoint_null_absent {st : EigenTrustSet} (h : filterAll st = some st)
    {i : Fin NUM_NEIGHBOURS} (hnull : (st.set i).1 = PK_NULL) :
    st.ops PK_NULL = none :=
  chain_null_absent h i (List.mem_finRange i) hnull

theorem iterOnce_eq_specStep {st : EigenTrustSet}
    (hnull : ∀ i, (st.set i).1 = PK_NULL → st.ops PK_NULL = none)
    (s : Fin NUM_NEIGHBOURS → Fr) : iterOnce st s = specStep st s := by
  funext a
  unfold iterOnce specStep
  apply Finset.sum_congr rfl
  intro b _
  by_cases hb : (st.set b).1 = PK_NULL
  · rw [show opAt st b = Opinion.defaultOp by rw [opAt, hb, hnull b hb]; rfl,
        show specOpAt st b = Opinion.defaultOp by rw [specOpAt, if_pos hb]]
    show (0 : Fr) * s b = s b * 0
    ring
  · rw [show specOpAt st b = opAt st b by rw [specOpAt, if_neg hb]; rfl]
    ring

theorem sIter_eq_specScores {st : EigenTrustSet}
    (hnull : ∀ i, (st.set i).1 = PK_NULL → st.ops PK_NULL = none) :
    ∀ t, sIter st t = specScores st t := by
  intro t
  induction t with
  | zero => rfl
  | succ t ih => rw [sIter, specScores, ih, iterOnce_eq_specStep hnull]

/-- Claim C1: for every participant set and opinion map already filtered per
the filter rules (the filter pass leaves the state unchanged), `converge`
returns the vector `s_{NUM_ITERATIONS}` of the recurrence
`s_{t+1}[j] = Σ_i s_t[i] · op_i.scores[j].value` started from
`s_0[i] = set[i].score`, where the opinion of every vacant slot
(`set[i].pk = PK_NULL`) is treated as all-zero. -/
theorem claim_C1 (st : EigenTrustSet) (hfilt : filterAll st = some st) :
    converge st = some (specScores st NUM_ITERATIONS) := by
  unfold converge convergeFull
  rw [hfilt]
  show some (sIter st NUM_ITERATIONS) = some (specScores st NUM_ITERATIONS)
  rw [sIter_eq_specScores (fun i hi => fixpoint_null_absent hfilt hi)]

/-- Witness for C1 at the fresh (all-vacant, opinion-free) state. -/
theorem claim_C1_witness :
    filterAll EigenTrustSet.new = some EigenTrustSet.new ∧
      converge EigenTrustSet.new = some (specScores EigenTrustSet.new NUM_ITERATIONS) :=
  ⟨rfl, claim_C1 EigenTrustSet.new rfl⟩

/-! Concrete states for the scenario claims. -/

/-- An opinion with the given score vector and zeroed signature data (the
filter and the iteration never read the signature). -/
def opFromScores (sc : Fin NUM_NEIGHBOURS → PublicKey × Fr) : Opinion :=
  { sig := ⟨0, 0, 0⟩, messageHash := 0, scores := sc }

/-- Two distinct members occupying slots 0 and 1, with an empty opinion map
(scenario S2). -/
def twoMemberState (pk1 pk2 : PublicKey) : EigenTrustSet :=
  { set := fun j =>
      if j = 0 then (pk1, (INITIAL_SCORE : Fr))
      else if j = 1 then (pk2, (INITIAL_SCORE : Fr)) else (PK_NULL, 0),
    ops := fun _ => none }

/-- Three members `1, 2, 3`; only members `1` and `2` store opinions (the
repository test `test_add_three_members_with_two_opinions`). -/
def exC3scenario : EigenTrustSet :=
  { set := fun j =>
      if j = 0 then (1, (INITIAL_SCORE : Fr))
      else if j = 1 then (2, (INITIAL_SCORE : Fr))
      else if j = 2 then (3, (INITIAL_SCORE : Fr)) else (PK_NULL, 0),
    ops := fun pk =>
      if pk = 1 then
        some (opFromScores (fun j =>
          if j = 0 then (1, 0) else if j = 1 then (2, 300)
          else if j = 2 then (3, 700) else (PK_NULL, 0)))
      else if pk = 2 then
        some (opFromScores (fun j =>
          if j = 0 then (1, 600) else if j = 1 then (2, 0)
          else if j = 2 then (3, 400) else (PK_NULL, 0)))
      else none }

/-- Three members `1, 2, 3` where member `3` only scores itself, so its
filtered scores sum to zero and the filter nullifies slot 2, while the other
two opinions (filtered before the nullification) still direct score at
slot 2. -/
def exC3null : EigenTrustSet :=
  { set := exC3scenario.set,
    ops := fun pk =>
      if pk = 3 then
        some (opFromScores (fun j => if j = 2 then (3, 1000) else (PK_NULL, 0)))
      else exC3scenario.ops pk }


/-- Claim C2 (amended): for two distinct members and an empty opinion map,
`converge` panics — modelled as `none` — at the first occupied slot, because
`self.ops.get_mut(&pk).unwrap()` unwraps a missing opinion; no score vector
is returned. -/
theorem claim_C2 (pk1 pk2 : PublicKey) (h1 : pk1 ≠ PK_NULL) :
    converge (twoMemberState pk1 pk2) = none := by
  have hfin : List.finRange NUM_NEIGHBOURS = 0 :: [1, 2, 3, 4, 5] := rfl
  have hstep : filterStep (twoMemberState pk1 pk2) 0 = none := by
    unfold filterStep
    simp [twoMemberState, h1]
  rw [converge, convergeFull, filterAll, hfin, filterChain_cons, hstep]
  rfl

/-- Counterexample to C2 as stated: at the concrete two-member state with
members `1` and `2` (distinct, both non-null) and no opinions, `converge`
panics (`none`) instead of returning the all-zero score vector. -/
theorem claim_C2_counterexample :
    converge (twoMemberState 1 2) = none ∧
      (1 : PublicKey) ≠ 2 ∧ (1 : PublicKey) ≠ PK_NULL ∧ (2 : PublicKey) ≠ PK_NULL :=
  ⟨rfl, by decide, by decide, by decide⟩

/-- Witness for the amended C2 at members `3` and `4`. -/
theorem claim_C2_witness : converge (twoMemberState 3 4) = none :=
  claim_C2 3 4 (by decide)

/-- Claim C3, evaluation at the failing inputs: the three-member scenario in
which only the first two members store opinions makes `converge` panic
(`none`) on the missing third opinion; and in the variant where the third
member stores a self-only opinion, the filter nullifies slot 2 while the
Aggregator iterate `s_1` is `1100000 ≠ 0` at slot 2, because the opinions of
slots 0 and 1 were filtered before the nullification and keep their scores
directed at slot 2. -/
theorem claim_C3 :
    converge exC3scenario = none ∧
      (filterAll exC3null).map (fun s => ((s.set 2).1, sIter s 1 2)) =
        some (PK_NULL, (1100000 : Fr)) ∧
      (1100000 : Fr) ≠ 0 :=
  ⟨rfl, by decide, by decide⟩

/-- Membership errors of the specification, §4.3 / §7. -/
inductive MembershipError where
  | alreadyMember
  | setFull

/-- Modelled from the spec, §4.3: `add_member` as an error-returning
operation — `AlreadyMember` for a duplicate key, `SetFull` when no vacant
slot exists, otherwise the key is placed in the first vacant slot with
`INITIAL_SCORE`. -/
def addMemberSpec (st : EigenTrustSet) (pk : PublicKey) :
    Except MembershipError EigenTrustSet :=
  if ∃ i, (st.set i).1 = pk then .error .alreadyMember
  else
    match (List.finRange NUM_NEIGHBOURS).find? (fun i => decide ((st.set i).1 = PK_NULL)) with
    | none => .error .setFull
    | some index =>
      .ok { st with set := Function.update st.set index (pk, (INITIAL_SCORE : Fr)) }

/-- Claim C6 (amended): `add_member` fails on a duplicate key and on a full
set, but it fails by panicking (`assert!` / `unwrap`, modelled `none`)
rather than by returning an error value to the caller. -/
theorem claim_C6 (st : EigenTrustSet) (pk : PublicKey) :
    ((∃ i, (st.set i).1 = pk) → addMember st pk = none) ∧
      ((∀ i, (st.set i).1 ≠ pk) → (∀ i, (st.set i).1 ≠ PK_NULL) →
        addMember st pk = none) := by
  constructor
  · rintro ⟨i, hi⟩
    have hpos : ((List.finRange NUM_NEIGHBOURS).find?
        (fun i => decide ((st.set i).1 = pk))).isSome :=
      List.find?_isSome.mpr ⟨i, List.mem_finRange i, by simpa using hi⟩
    simp only [addMember]
    cases hfind : (List.finRange NUM_NEIGHBOURS).find?
        (fun i => decide ((st.set i).1 = pk)) with
    | none => rw [hfind] at hpos; cases hpos
    | some j => rfl
  · intro hfresh hfull
    have h1 : (List.finRange NUM_NEIGHBOURS).find?
        (fun i => decide ((st.set i).1 = pk)) = none :=
      List.find?_eq_none.mpr (fun i _ => by simpa using hfresh i)
    have h2 : (List.finRange NUM_NEIGHBOURS).find?
        (fun i => decide ((st.set i).1 = PK_NULL)) = none :=
      List.find?_eq_none.mpr (fun i _ => by simpa using hfull i)
    simp only [addMember]
    rw [h1, h2]

/-- Counterexample to C6 as stated: on the duplicate add of key `1`, the
spec-modelled operation returns the `AlreadyMember` error while the code
panics (`none`); consequently a call sequence that hits the duplicate add
aborts instead of continuing past a returned error. -/
theorem claim_C6_counterexample :
    addMemberSpec (twoMemberState 1 2) 1 = Except.error MembershipError.alreadyMember ∧
      addMember (twoMemberState 1 2) 1 = none ∧
      run [Call.add 1, Call.add 1, Call.add 2] = none :=
  ⟨rfl, rfl, rfl⟩

/-- A full set: six members with keys `1, …, 6`. -/
def fullMemberState : EigenTrustSet :=
  { set := fun j => ((j.val + 1 : ℕ), (INITIAL_SCORE : Fr)), ops := fun _ => none }

/-- Witness for the amended C6: the duplicate add panics on the two-member
state, and adding key `7` to the full six-member state panics. -/
theorem claim_C6_witness :
    addMember (twoMemberState 1 2) 1 = none ∧ addMember fullMemberState 7 = none :=
  ⟨(claim_C6 (twoMemberState 1 2) 1).1 ⟨0, rfl⟩,
   (claim_C6 fullMemberState 7).2 (by decide) (by decide)⟩

/-- All non-null keys in the slot array are pairwise distinct. -/
def DistinctKeys (st : EigenTrustSet) : Prop :=
  ∀ i j, i ≠ j → (st.set i).1 ≠ PK_NULL → (st.set i).1 ≠ (st.set j).1

/-- Every non-null key of the opinion map appears in the slot array. -/
def OpsKeysInSet (st : EigenTrustSet) : Prop :=
  ∀ pk, pk ≠ PK_NULL → (st.ops pk).isSome → ∃ i, (st.set i).1 = pk

theorem addMember_inv {st st' : EigenTrustSet} {pk : PublicKey}
    (h : addMember st pk = some st') :
    (∀ i, (st.set i).1 ≠ pk) ∧ pk ≠ PK_NULL ∧
      ∃ index, (st.set index).1 = PK_NULL ∧
        st' = { st with set := Function.update st.set index (pk, (INITIAL_SCORE : Fr)) } := by
  simp only [addMember] at h
  cases hpos : (List.finRange NUM_NEIGHBOURS).find?
      (fun i => decide ((st.set i).1 = pk)) with
  | some j => rw [hpos] at h; cases h
  | none =>
    rw [hpos] at h
    cases hfa : (List.finRange NUM_NEIGHBOURS).find?
        (fun i => decide ((st.set i).1 = PK_NULL)) with
    | none => rw [hfa] at h; cases h
    | some index =>
      rw [hfa] at h
      have hfresh : ∀ i, (st.set i).1 ≠ pk := by
        intro i hi
        have := List.find?_eq_none.mp hpos i (List.mem_finRange i)
        simp [hi] at this
      have hindex : (st.set index).1 = PK_NULL := by
        have := List.find?_some hfa
        simpa using this
      have hpk : pk ≠ PK_NULL := fun he => hfresh index (by rw [hindex, he])
      exact ⟨hfresh, hpk, index, hindex, (Option.some_inj.mp h).symm⟩

theorem updateOp_inv {st st' : EigenTrustSet} {sender : PublicKey} {op : Opinion}
    (h : updateOp st sender op = some st') :
    (∃ i, (st.set i).1 = sender) ∧
      st' = { st with ops := Function.update st.ops sender (some op) } := by
  simp only [updateOp] at h
  cases hpos : (List.finRange NUM_NEIGHBOURS).find?
      (fun i => decide ((st.set i).1 = sender)) with
  | none => rw [hpos] at h; cases h
  | some j =>
    rw [hpos] at h
    have : (st.set j).1 = sender := by
      have := List.find?_some hpos
      simpa using this
    exact ⟨⟨j, this⟩, (Option.some_inj.mp h).symm⟩

theorem convCall_inv {st st' : EigenTrustSet}
    (h : runCall st Call.conv = some st') : filterAll st = some st' := by
  simp only [runCall, convergeFull] at h
  cases hfa : filterAll st with
  | none => rw [hfa] at h; cases h
  | some s2 =>
    rw [hfa] at h
    have h2 : s2 = st' := by simpa using h
    exact congrArg some h2

theorem runCall_distinct {st st' : EigenTrustSet} {c : Call}
    (h : runCall st c = some st') (hd : DistinctKeys st) : DistinctKeys st' := by
  cases c with
  | add pk =>
    obtain ⟨hfresh, hpk, idx, hindex, hst⟩ := addMember_inv h
    subst hst
    intro i j hij hi
    rcases eq_or_ne i idx with rfl | hiI
    · have hjI : j ≠ i := fun he => hij he.symm
      simp only [Function.update_same, Function.update_noteq hjI]
      exact fun he => hfresh j he.symm
    · rcases eq_or_ne j idx with rfl | hjI
      · simp only [Function.update_noteq hiI, Function.update_same]
        exact fun he => hfresh i he
      · simp only [Function.update_noteq hiI, Function.update_noteq hjI] at hi ⊢
        exact hd i j hij hi
  | upd pk op =>
    obtain ⟨_, rfl⟩ := updateOp_inv h
    exact hd
  | conv =>
    have hfa := convCall_inv h
    intro i j hij hi
    rcases chain_set_mono hfa i with hsi | hsi
    · rcases chain_set_mono hfa j with hsj | hsj
      · rw [hsi, hsj]; rw [hsi] at hi; exact hd i j hij hi
      · rw [hsj]; exact hi
    · rw [hsi] at hi; exact absurd rfl hi

theorem runCall_opskeys {st st' : EigenTrustSet} {c : Call}
    (h : runCall st c = some st') (hc : c ≠ Call.conv) (hq : OpsKeysInSet st) :
    OpsKeysInSet st' := by
  cases c with
  | add pk =>
    obtain ⟨hfresh, hpk, index, hindex, rfl⟩ := addMember_inv h
    intro pk0 hpk0 hsome
    obtain ⟨i, hi⟩ := hq pk0 hpk0 hsome
    refine ⟨i, ?_⟩
    have hiI : i ≠ index := fun he => hpk0 (by rw [← hi, he, hindex])
    simpa only [Function.update_noteq hiI] using hi
  | upd pk op =>
    obtain ⟨⟨i, hi⟩, rfl⟩ := updateOp_inv h
    intro pk0 hpk0 hsome
    by_cases hkey : pk0 = pk
    · exact ⟨i, by rw [hi, hkey]⟩
    · refine hq pk0 hpk0 ?_
      simpa only [Function.update_noteq hkey] using hsome
  | conv => exact absurd rfl hc

theorem foldRun_some_cons {c : Call} {calls : List Call} {st st' : EigenTrustSet}
    (h : (c :: calls).foldlM runCall st = some st') :
    ∃ st₂, runCall st c = some st₂ ∧ calls.foldlM runCall st₂ = some st' := by
  have hh : (c :: calls).foldlM runCall st
      = (runCall st c).bind (fun st₂ => calls.foldlM runCall st₂) := rfl
  rw [hh] at h
  cases hc : runCall st c with
  | none => rw [hc] at h; cases h
  | some st₂ => rw [hc] at h; exact ⟨st₂, rfl, h⟩

theorem run_inv : ∀ {calls : List Call} {st st' : EigenTrustSet},
    calls.foldlM runCall st = some st' → DistinctKeys st →
      DistinctKeys st' ∧ (OpsKeysInSet st → Call.conv ∉ calls → OpsKeysInSet st') := by
  intro calls
  induction calls with
  | nil =>
    intro st st' h hd
    have h2 : st = st' := Option.some_inj.mp h
    subst h2
    exact ⟨hd, fun hq _ => hq⟩
  | cons c calls ih =>
    intro st st' h hd
    obtain ⟨st₂, hc, hrest⟩ := foldRun_some_cons h
    have hd₂ := runCall_distinct hc hd
    obtain ⟨hdd, hqq⟩ := ih hrest hd₂
    refine ⟨hdd, fun hq hmem => ?_⟩
    have hcne : c ≠ Call.conv := fun he => hmem (he ▸ List.mem_cons_self c calls)
    exact hqq (runCall_opskeys hc hcne hq) (fun hm => hmem (List.mem_cons_of_mem c hm))

/-- Claim C9 (amended): after every non-failing sequence of `add_member`,
`update_op` and `converge` calls on a fresh `EigenTrustSet`, the non-null
keys of the slot array are pairwise distinct; and when the sequence contains
no `converge` call, every non-null key of the opinion map appears in the
slot array. -/
theorem claim_C9 (calls : List Call) (st' : EigenTrustSet)
    (h : run calls = some st') :
    DistinctKeys st' ∧ (Call.conv ∉ calls → OpsKeysInSet st') := by
  have hd0 : DistinctKeys EigenTrustSet.new := fun i j _ hi => absurd rfl hi
  have hq0 : OpsKeysInSet EigenTrustSet.new := by
    intro pk _ hsome
    cases hsome
  obtain ⟨hd, hq⟩ := run_inv h hd0
  exact ⟨hd, fun hmem => hq hq0 hmem⟩

/-- Counterexample to C9 as stated: first, after
`add 1; update_op 1 (all-zero opinion); converge`, the converge filter
nullifies slot 0 but keeps the opinion keyed `1`, so the ops key `1` no
longer appears in the set; second, even without `converge`, filling five
slots, calling `update_op` with the null key (which the code accepts because
a vacant slot carries `PK_NULL`), and then filling the last slot leaves an
opinion keyed `PK_NULL` while no slot carries `PK_NULL`. -/
theorem claim_C9_counterexample :
    ((run [Call.add 1, Call.upd 1 Opinion.defaultOp, Call.conv]).map
        (fun s => ((s.ops 1).isSome, decide (∃ i, (s.set i).1 = 1)))
      = some (true, false)) ∧
    ((run [Call.add 1, Call.add 2, Call.add 3, Call.add 4, Call.add 5,
           Call.upd PK_NULL Opinion.defaultOp, Call.add 6]).map
        (fun s => ((s.ops PK_NULL).isSome, decide (∃ i, (s.set i).1 = PK_NULL)))
      = some (true, false)) :=
  ⟨by decide, by decide⟩

/-- The state reached by `add 1; update_op 1 (all-zero opinion)`. -/
def w9St : EigenTrustSet :=
  (run [Call.add 1, Call.upd 1 Opinion.defaultOp]).getD EigenTrustSet.new

/-- Witness for the amended C9 on the concrete converge-free sequence
`add 1; update_op 1 (all-zero opinion)`. -/
theorem claim_C9_witness : DistinctKeys w9St ∧ OpsKeysInSet w9St :=
  ⟨(claim_C9 [Call.add 1, Call.upd 1 Opinion.defaultOp] w9St rfl).1,
   (claim_C9 [Call.add 1, Call.upd 1 Opinion.defaultOp] w9St rfl).2 (by simp)⟩

/-- Claim C8: `converge` is a deterministic function of the slot array and
of the contents (the lookup function) of the opinion map: two states whose
slot arrays agree pointwise and whose opinion maps answer every key
identically produce identical `converge` results.  Hash-map iteration order
cannot influence the result because `converge` only ever queries the map by
key, which is exactly what the model captures. -/
theorem claim_C8 (set₁ set₂ : Fin NUM_NEIGHBOURS → PublicKey × Fr)
    (ops₁ ops₂ : PublicKey → Option Opinion)
    (hset : ∀ i, set₁ i = set₂ i) (hops : ∀ pk, ops₁ pk = ops₂ pk) :
    converge ⟨set₁, ops₁⟩ = converge ⟨set₂, ops₂⟩ := by
  rw [funext hset, funext hops]

/-- Witness for C8: two representations of the empty opinion map. -/
theorem claim_C8_witness :
    converge ⟨EigenTrustSet.new.set, fun pk => if pk = 5 then none else none⟩
      = converge ⟨EigenTrustSet.new.set, fun _ => none⟩ :=
  claim_C8 _ _ _ _ (fun _ => rfl) (fun pk => by by_cases h : pk = 5 <;> simp [h])

/-! Lemmas for the peer-side claims. -/

theorem slots_isSome {vf : VerifyFn} {p : PeerSt} {k : Epoch}
    (hid : ∀ pid, (∃ i, p.neighbors i = some pid) → (p.pubkeys pid).isSome)
    (hok : ∀ o pk, ∃ b, vf o pk p.localPubKey = Except.ok b) :
    ∀ i, (neighborOpSlot vf p k i).isSome := by
  intro i
  cases hn : p.neighbors i with
  | none => simp [neighborOpSlot, hn]
  | some pid =>
    have hpks := hid pid ⟨i, hn⟩
    cases hpk : p.pubkeys pid with
    | none => rw [hpk] at hpks; cases hpks
    | some pk =>
      obtain ⟨b, hb⟩ := hok (getNeighborOpinion p (pid, k)) pk
      simp [neighborOpSlot, hn, hpk, hb]

theorem localLoop_some (gen : GenFn) (k : Epoch) (opJi : Fin MAX_NEIGHBORS → ℚ) :
    ∀ (l : List PeerId) (st : PeerSt),
      (∀ pid ∈ l, (st.pubkeys pid).isSome) →
      (∀ pk e o n, ∃ op, gen pk e o n = Except.ok op) →
      (l.foldlM (localOpStep gen k opJi) st).isSome = true := by
  intro l
  induction l with
  | nil => intro st _ _; rfl
  | cons pid l ih =>
    intro st hpk hgen
    have h1 := hpk pid (List.mem_cons_self pid l)
    cases hpks : st.pubkeys pid with
    | none => rw [hpks] at h1; cases h1
    | some pubkey =>
      obtain ⟨op, hop⟩ :=
        hgen pubkey (k + 1) opJi (getNormalizedScore st ((st.neighborScores pid).getD 0))
      have hstep : localOpStep gen k opJi st pid
          = some { st with cachedLocalOp :=
                     Function.update st.cachedLocalOp (pid, op.k) (some op) } := by
        simp only [localOpStep, hpks, hop]
      have hcons : (pid :: l).foldlM (localOpStep gen k opJi) st
          = (localOpStep gen k opJi st pid).bind
              (fun st₂ => l.foldlM (localOpStep gen k opJi) st₂) := rfl
      rw [hcons, hstep]
      exact ih _ (fun pid₂ hm => hpk pid₂ (List.mem_cons_of_mem pid hm)) hgen

/-- Claim C7: when every neighbor in the array has an identified public key
and the (spec-modelled) opinion verification always returns a verdict
(crypto failures are reported as a `false` verdict, per the failure
semantics of §4.5/§7), `get_neighbor_opinions_at` completes, every opinion
whose verification fails contributes `0` to the array, and
`global_trust_score_at` completes as well: a failed opinion is discarded,
never fatal. -/
theorem claim_C7 (vf : VerifyFn) (p : PeerSt) (k : Epoch)
    (hid : ∀ pid, (∃ i, p.neighbors i = some pid) → (p.pubkeys pid).isSome)
    (hok : ∀ o pk, ∃ b, vf o pk p.localPubKey = Except.ok b) :
    ∃ out, getNeighborOpinionsAt vf p k = some out ∧
      (∀ i pid, p.neighbors i = some pid →
        vf (getNeighborOpinion p (pid, k)) ((p.pubkeys pid).getD 0) p.localPubKey
            = Except.ok false →
          out i = 0) ∧
      ∃ t, globalTrustScoreAt vf p k = some t := by
  have hsome : ∀ i, (neighborOpSlot vf p k i).isSome := slots_isSome hid hok
  refine ⟨fun i => (neighborOpSlot vf p k i).get (hsome i), ?_, ?_, ?_⟩
  · unfold getNeighborOpinionsAt
    rw [dif_pos hsome]
  · intro i pid hn hvf
    have hpks := hid pid ⟨i, hn⟩
    have hslot : neighborOpSlot vf p k i = some 0 := by
      cases hpk : p.pubkeys pid with
      | none => rw [hpk] at hpks; cases hpks
      | some pk =>
        have hvf₂ : vf (getNeighborOpinion p (pid, k)) pk p.localPubKey
            = Except.ok false := by
          rw [hpk] at hvf
          simpa using hvf
        simp [neighborOpSlot, hn, hpk, hvf₂]
    simp only [hslot, Option.get_some]
  · refine ⟨∑ i, (neighborOpSlot vf p k i).get (hsome i), ?_⟩
    unfold globalTrustScoreAt getNeighborOpinionsAt
    rw [dif_pos hsome]
    rfl

/-- A verification oracle rejecting everything with a `false` verdict. -/
def vfFalse : VerifyFn := fun _ _ _ => Except.ok false

/-- A peer with one identified neighbor (peer id `7`) and one cached
neighbor opinion. -/
def exPeer7 : PeerSt :=
  { neighbors := fun i => if i.val = 0 then some 7 else none,
    pubkeys := fun _ => some 5,
    neighborScores := fun _ => none,
    cachedNeighborOp := fun key => if key = (7, 0) then some ⟨0, (1 : ℚ) / 2⟩ else none,
    cachedLocalOp := fun _ => none,
    localPubKey := 9 }

/-- Witness for C7: the all-rejecting verdict oracle on a peer with one
cached opinion still lets both computations complete. -/
theorem claim_C7_witness :
    (getNeighborOpinionsAt vfFalse exPeer7 0).isSome = true ∧
      (globalTrustScoreAt vfFalse exPeer7 0).isSome = true := by
  obtain ⟨out, h1, _, t, h3⟩ :=
    claim_C7 vfFalse exPeer7 0 (fun pid _ => rfl) (fun o pk => ⟨false, rfl⟩)
  rw [h1, h3]
  exact ⟨rfl, rfl⟩

/-- Claim C10: `calculate_local_opinions` panics (`none`) whenever some
neighbor in the array was added but never identified — the public-key lookup
is an `unwrap`, not a returned error — and under the precondition that every
neighbor is identified (and the abstract verify/generate helpers return),
the computation completes: the lookups cannot fail. -/
theorem claim_C10 (vf : VerifyFn) (gen : GenFn) (p : PeerSt) (k : Epoch) :
    ((∃ i pid, p.neighbors i = some pid ∧ p.pubkeys pid = none) →
        calculateLocalOpinions vf gen p k = none) ∧
      ((∀ pid, (∃ i, p.neighbors i = some pid) → (p.pubkeys pid).isSome) →
        (∀ o pk, ∃ b, vf o pk p.localPubKey = Except.ok b) →
        (∀ pk e o n, ∃ op, gen pk e o n = Except.ok op) →
        (calculateLocalOpinions vf gen p k).isSome = true) := by
  constructor
  · rintro ⟨i, pid, hn, hpk⟩
    have hslot : neighborOpSlot vf p k i = none := by
      simp [neighborOpSlot, hn, hpk]
    have hnall : ¬ ∀ j, (neighborOpSlot vf p k j).isSome := by
      intro hall
      have := hall i
      rw [hslot] at this
      cases this
    unfold calculateLocalOpinions getNeighborOpinionsAt
    rw [dif_neg hnall]
    rfl
  · intro hid hok hgen
    have hsome : ∀ i, (neighborOpSlot vf p k i).isSome := slots_isSome hid hok
    unfold calculateLocalOpinions getNeighborOpinionsAt
    rw [dif_pos hsome]
    apply localLoop_some
    · intro pid hm
      obtain ⟨i, _, hn⟩ := List.mem_filterMap.mp hm
      exact hid pid ⟨i, hn⟩
    · exact hgen

/-- A generation oracle that always returns the fixed opinion `⟨1, 0⟩`. -/
def genOk : GenFn := fun _ _ _ _ => Except.ok ⟨1, 0⟩

/-- A peer with one neighbor (peer id `3`) that was never identified. -/
def exPeer10bad : PeerSt :=
  { neighbors := fun i => if i.val = 0 then some 3 else none,
    pubkeys := fun _ => none,
    neighborScores := fun _ => none,
    cachedNeighborOp := fun _ => none,
    cachedLocalOp := fun _ => none,
    localPubKey := 9 }

/-- Witness for C10: the fully identified peer completes, the unidentified
one panics. -/
theorem claim_C10_witness :
    (calculateLocalOpinions vfFalse genOk exPeer7 0).isSome = true ∧
      calculateLocalOpinions vfFalse genOk exPeer10bad 0 = none :=
  ⟨(claim_C10 vfFalse genOk exPeer7 0).2 (fun pid _ => rfl)
      (fun o pk => ⟨false, rfl⟩) (fun pk e o n => ⟨⟨1, 0⟩, rfl⟩),
   (claim_C10 vfFalse genOk exPeer10bad 0).1 ⟨0, 3, rfl, rfl⟩⟩

/-! Fixpoint lemmas for the filter. -/

theorem chain_of_steps : ∀ {l : List (Fin NUM_NEIGHBOURS)} {st : EigenTrustSet},
    (∀ i ∈ l, filterStep st i = some st) → filterChain st l = some st := by
  intro l
  induction l with
  | nil => intro st _; rfl
  | cons i l ih =>
    intro st h
    rw [filterChain_cons, h i (List.mem_cons_self i l)]
    exact ih (fun j hj => h j (List.mem_cons_of_mem i hj))

theorem filterStep_eq_pos {st : EigenTrustSet} {i : Fin NUM_NEIGHBOURS} {op : Opinion}
    (hpk : (st.set i).1 ≠ PK_NULL) (hop : st.ops (st.set i).1 = some op) :
    filterStep st i
      = some { set := if (∑ j, (refilter st.set i op.scores j).2) = 0
                      then Function.update st.set i (PK_NULL, 0) else st.set,
               ops := Function.update st.ops (st.set i).1
                        (some { op with scores := refilter st.set i op.scores }) } := by
  unfold filterStep
  rw [if_neg hpk, hop]

theorem filterStep_id {st : EigenTrustSet} {i : Fin NUM_NEIGHBOURS} {op : Opinion}
    (hpk : (st.set i).1 ≠ PK_NULL) (hop : st.ops (st.set i).1 = some op)
    (hsc : refilter st.set i op.scores = op.scores)
    (hsum : (∑ j, (op.scores j).2) ≠ 0) :
    filterStep st i = some st := by
  rw [filterStep_eq_pos hpk hop, hsc]
  rw [if_neg hsum]
  rw [show ({ op with scores := op.scores } : Opinion) = op from rfl, ← hop,
    Function.update_eq_self]

theorem filterStep_id_null {st : EigenTrustSet} {i : Fin NUM_NEIGHBOURS}
    (hpk : (st.set i).1 = PK_NULL) (hops : st.ops PK_NULL = none) :
    filterStep st i = some st := by
  unfold filterStep
  rw [if_pos hpk, hpk, hops]

/-! The symmetric-pair scenario S4. -/

/-- Opinion of the first member of the pair: `INITIAL_SCORE` for the second
member, zero elsewhere (the score array of
`test_add_two_members_with_opinions`). -/
def pairOp1 (pk1 pk2 : PublicKey) : Opinion :=
  opFromScores (fun j =>
    if j = 0 then (pk1, 0)
    else if j = 1 then (pk2, (INITIAL_SCORE : Fr)) else (PK_NULL, 0))

/-- Opinion of the second member of the pair: `INITIAL_SCORE` for the first
member, zero elsewhere. -/
def pairOp2 (pk1 pk2 : PublicKey) : Opinion :=
  opFromScores (fun j =>
    if j = 0 then (pk1, (INITIAL_SCORE : Fr))
    else if j = 1 then (pk2, 0) else (PK_NULL, 0))

/-- The symmetric pair state: members `pk1, pk2` in slots 0 and 1, each with
an opinion scoring the other at `INITIAL_SCORE`. -/
def pairState (pk1 pk2 : PublicKey) : EigenTrustSet :=
  { set := (twoMemberState pk1 pk2).set,
    ops := fun pk =>
      if pk = pk1 then some (pairOp1 pk1 pk2)
      else if pk = pk2 then some (pairOp2 pk1 pk2) else none }

/-- The vector with value `a` at slots 0 and 1 and zero elsewhere. -/
def pairVec (a : Fr) : Fin NUM_NEIGHBOURS → Fr := fun j => if j.val ≤ 1 then a else 0

theorem pairState_fixed {pk1 pk2 : PublicKey}
    (h1 : pk1 ≠ PK_NULL) (h2 : pk2 ≠ PK_NULL) (h12 : pk1 ≠ pk2) :
    filterAll (pairState pk1 pk2) = some (pairState pk1 pk2) := by
  have hops1 : (pairState pk1 pk2).ops pk1 = some (pairOp1 pk1 pk2) := by
    simp [pairState]
  have hops2 : (pairState pk1 pk2).ops pk2 = some (pairOp2 pk1 pk2) := by
    simp [pairState, Ne.symm h12]
  have hopsN : (pairState pk1 pk2).ops PK_NULL = none := by
    simp [pairState, Ne.symm h1, Ne.symm h2]
  have hsc1 : refilter (pairState pk1 pk2).set 0 (pairOp1 pk1 pk2).scores
      = (pairOp1 pk1 pk2).scores := by
    funext j
    fin_cases j <;>
      first
        | rfl
        | simp [refilter, pairState, twoMemberState, pairOp1, opFromScores]
  have hsc2 : refilter (pairState pk1 pk2).set 1 (pairOp2 pk1 pk2).scores
      = (pairOp2 pk1 pk2).scores := by
    funext j
    fin_cases j <;>
      first
        | rfl
        | simp [refilter, pairState, twoMemberState, pairOp2, opFromScores]
  have hsum1 : (∑ j, ((pairOp1 pk1 pk2).scores j).2) ≠ 0 := by
    rw [Fin.sum_univ_six]
    show (0 : Fr) + 1000 + 0 + 0 + 0 + 0 ≠ 0
    decide
  have hsum2 : (∑ j, ((pairOp2 pk1 pk2).scores j).2) ≠ 0 := by
    rw [Fin.sum_univ_six]
    show (1000 : Fr) + 0 + 0 + 0 + 0 + 0 ≠ 0
    decide
  apply chain_of_steps
  intro i hi
  fin_cases i
  · exact filterStep_id h1 hops1 hsc1 hsum1
  · exact filterStep_id h2 hops2 hsc2 hsum2
  · exact filterStep_id_null rfl hopsN
  · exact filterStep_id_null rfl hopsN
  · exact filterStep_id_null rfl hopsN
  · exact filterStep_id_null rfl hopsN

theorem pair_opAt0 {pk1 pk2 : PublicKey} :
    opAt (pairState pk1 pk2) 0 = pairOp1 pk1 pk2 := by
  simp [opAt, pairState, twoMemberState]

theorem pair_opAt1 {pk1 pk2 : PublicKey} (h12 : pk1 ≠ pk2) :
    opAt (pairState pk1 pk2) 1 = pairOp2 pk1 pk2 := by
  simp [opAt, pairState, twoMemberState, Ne.symm h12]

theorem pair_opAt_null {pk1 pk2 : PublicKey}
    (h1 : pk1 ≠ PK_NULL) (h2 : pk2 ≠ PK_NULL) (j : Fin NUM_NEIGHBOURS)
    (hj : (pairState pk1 pk2).set j = (PK_NULL, 0)) :
    opAt (pairState pk1 pk2) j = Opinion.defaultOp := by
  rw [opAt, hj]
  show ((pairState pk1 pk2).ops PK_NULL).getD Opinion.defaultOp = Opinion.defaultOp
  simp [pairState, Ne.symm h1, Ne.symm h2]

theorem pair_iterOnce {pk1 pk2 : PublicKey}
    (h1 : pk1 ≠ PK_NULL) (h2 : pk2 ≠ PK_NULL) (h12 : pk1 ≠ pk2) (a : Fr) :
    iterOnce (pairState pk1 pk2) (pairVec a) = pairVec ((INITIAL_SCORE : Fr) * a) := by
  funext i
  show (∑ j, ((opAt (pairState pk1 pk2) j).scores i).2 * pairVec a j)
      = pairVec ((INITIAL_SCORE : Fr) * a) i
  rw [Fin.sum_univ_six, pair_opAt0, pair_opAt1 h12,
    pair_opAt_null h1 h2 2 rfl, pair_opAt_null h1 h2 3 rfl,
    pair_opAt_null h1 h2 4 rfl, pair_opAt_null h1 h2 5 rfl]
  fin_cases i <;>
    simp +decide [pairOp1, pairOp2, opFromScores, Opinion.defaultOp, pairVec]

theorem pair_sIter {pk1 pk2 : PublicKey}
    (h1 : pk1 ≠ PK_NULL) (h2 : pk2 ≠ PK_NULL) (h12 : pk1 ≠ pk2) :
    ∀ t, sIter (pairState pk1 pk2) t = pairVec ((INITIAL_SCORE : Fr) ^ t * (INITIAL_SCORE : Fr)) := by
  intro t
  induction t with
  | zero =>
    funext i
    show ((pairState pk1 pk2).set i).2 = pairVec ((INITIAL_SCORE : Fr) ^ 0 * (INITIAL_SCORE : Fr)) i
    fin_cases i <;> simp +decide [pairState, twoMemberState, pairVec]
  | succ t ih =>
    rw [sIter, ih, pair_iterOnce h1 h2 h12]
    rw [show (INITIAL_SCORE : Fr) * ((INITIAL_SCORE : Fr) ^ t * (INITIAL_SCORE : Fr))
        = (INITIAL_SCORE : Fr) ^ (t + 1) * (INITIAL_SCORE : Fr) by ring]

/-- The full symmetric-pair evaluation: `converge` succeeds and yields
`INITIAL_SCORE ^ (NUM_ITERATIONS + 1)` at slots 0 and 1 and zero elsewhere. -/
theorem pair_converge {pk1 pk2 : PublicKey}
    (h1 : pk1 ≠ PK_NULL) (h2 : pk2 ≠ PK_NULL) (h12 : pk1 ≠ pk2) :
    converge (pairState pk1 pk2)
      = some (pairVec ((INITIAL_SCORE : Fr) ^ (NUM_ITERATIONS + 1))) := by
  unfold converge convergeFull
  rw [pairState_fixed h1 h2 h12]
  show some (sIter (pairState pk1 pk2) NUM_ITERATIONS) = _
  rw [pair_sIter h1 h2 h12]
  rw [show ((INITIAL_SCORE : Fr) ^ NUM_ITERATIONS * (INITIAL_SCORE : Fr))
      = (INITIAL_SCORE : Fr) ^ (NUM_ITERATIONS + 1) from (pow_succ _ _).symm]

/-- Claim C5 (amended): for the symmetric pair, the vector returned by
`converge` has equal entries at slots 0 and 1 and zero elsewhere, and the
sum of its entries equals `2 · INITIAL_SCORE ^ (NUM_ITERATIONS + 1)` — not
`2 · INITIAL_SCORE`, since the code performs no normalization and each
iteration scales the total by `INITIAL_SCORE`. -/
theorem claim_C5 (pk1 pk2 : PublicKey)
    (h1 : pk1 ≠ PK_NULL) (h2 : pk2 ≠ PK_NULL) (h12 : pk1 ≠ pk2) :
    ∃ v, converge (pairState pk1 pk2) = some v ∧ v 0 = v 1 ∧
      (∀ j : Fin NUM_NEIGHBOURS, 2 ≤ j.val → v j = 0) ∧
      (∑ j, v j) = 2 * (INITIAL_SCORE : Fr) ^ (NUM_ITERATIONS + 1) := by
  refine ⟨pairVec ((INITIAL_SCORE : Fr) ^ (NUM_ITERATIONS + 1)),
    pair_converge h1 h2 h12, rfl, ?_, ?_⟩
  · intro j hj
    have : ¬ j.val ≤ 1 := by omega
    simp [pairVec, this]
  · rw [Fin.sum_univ_six]
    show ((INITIAL_SCORE : Fr) ^ (NUM_ITERATIONS + 1)) + ((INITIAL_SCORE : Fr) ^ (NUM_ITERATIONS + 1))
        + 0 + 0 + 0 + 0 = _
    ring

/-- Counterexample to C5 as stated: at the concrete pair `1, 2`, the sum of
the returned entries is `2 · INITIAL_SCORE ^ 21`, which differs from the
claimed `2 · INITIAL_SCORE` in `Fr`. -/
theorem claim_C5_counterexample :
    (converge (pairState 1 2)).map (fun v => ∑ j, v j)
        = some (2 * (INITIAL_SCORE : Fr) ^ (NUM_ITERATIONS + 1)) ∧
      2 * (INITIAL_SCORE : Fr) ^ (NUM_ITERATIONS + 1) ≠ 2 * (INITIAL_SCORE : Fr) := by
  constructor
  · rw [pair_converge (by decide) (by decide) (by decide)]
    show some (∑ j, pairVec ((INITIAL_SCORE : Fr) ^ (NUM_ITERATIONS + 1)) j) = _
    rw [Fin.sum_univ_six]
    show some (((INITIAL_SCORE : Fr) ^ (NUM_ITERATIONS + 1)) + ((INITIAL_SCORE : Fr) ^ (NUM_ITERATIONS + 1))
        + 0 + 0 + 0 + 0) = _
    rw [show ((INITIAL_SCORE : Fr) ^ (NUM_ITERATIONS + 1)) + ((INITIAL_SCORE : Fr) ^ (NUM_ITERATIONS + 1))
        + 0 + 0 + 0 + 0 = 2 * (INITIAL_SCORE : Fr) ^ (NUM_ITERATIONS + 1) by ring]
  · decide

/-- Witness for the amended C5 at the concrete pair `3, 4`. -/
theorem claim_C5_witness :
    (converge (pairState 3 4)).isSome = true ∧
      (converge (pairState 3 4)).map (fun v => ∑ j, v j)
        = some (2 * (INITIAL_SCORE : Fr) ^ (NUM_ITERATIONS + 1)) := by
  obtain ⟨v, hv, _, _, hsum⟩ := claim_C5 3 4 (by decide) (by decide) (by decide)
  rw [hv]
  exact ⟨rfl, congrArg some hsum⟩

/-! Idempotence analysis of the filter. -/

/-- A score vector is already zero at every position the slot-`i` filter
pass would zero (relative to the slot array `base`). -/
def ScoresOK (base : Fin NUM_NEIGHBOURS → PublicKey × Fr) (i : Fin NUM_NEIGHBOURS)
    (sc : Fin NUM_NEIGHBOURS → PublicKey × Fr) : Prop :=
  ∀ j, (sc j).2 ≠ 0 → (j ≠ i ∧ (base j).1 = (sc j).1)

/-- After the pass, slot `i` is either vacant or its stored opinion is a
fixpoint of the slot-`i` zeroing with nonzero score sum. -/
def SlotGood (base : Fin NUM_NEIGHBOURS → PublicKey × Fr) (s : EigenTrustSet)
    (i : Fin NUM_NEIGHBOURS) : Prop :=
  (base i).1 = PK_NULL ∨
    ∃ op, s.ops (base i).1 = some op ∧ ScoresOK base i op.scores ∧
      (∑ j, (op.scores j).2) ≠ 0

theorem refilter_id_of_scoresOK {base : Fin NUM_NEIGHBOURS → PublicKey × Fr}
    {i : Fin NUM_NEIGHBOURS} {sc : Fin NUM_NEIGHBOURS → PublicKey × Fr}
    (hOK : ScoresOK base i sc) : refilter base i sc = sc := by
  funext j
  by_cases hc : j ≠ i ∧ (base j).1 = (sc j).1
  · rw [refilter, if_pos hc]
  · have h0 : (sc j).2 = 0 := by
      by_contra hnz
      exact hc (hOK j hnz)
    rw [refilter, if_neg hc, ← h0]

theorem refilter_preserves_scoresOK {base set₀ : Fin NUM_NEIGHBOURS → PublicKey × Fr}
    {i k : Fin NUM_NEIGHBOURS} {sc : Fin NUM_NEIGHBOURS → PublicKey × Fr}
    (hOK : ScoresOK base i sc) : ScoresOK base i (refilter set₀ k sc) := by
  intro j hnz
  by_cases hc : j ≠ k ∧ (set₀ j).1 = (sc j).1
  · rw [refilter, if_pos hc] at hnz
    exact hOK j hnz
  · rw [refilter, if_neg hc] at hnz
    exact absurd rfl hnz

theorem refilter_scoresOK_self (set₀ : Fin NUM_NEIGHBOURS → PublicKey × Fr)
    (k : Fin NUM_NEIGHBOURS) (sc : Fin NUM_NEIGHBOURS → PublicKey × Fr) :
    ScoresOK set₀ k (refilter set₀ k sc) := by
  intro j hnz
  by_cases hc : j ≠ k ∧ (set₀ j).1 = (sc j).1
  · exact ⟨hc.1, by rw [refilter]; exact hc.2⟩
  · rw [refilter, if_neg hc] at hnz
    exact absurd rfl hnz

theorem pass1_main :
    ∀ {l : List (Fin NUM_NEIGHBOURS)} {st st' : EigenTrustSet}
      {base : Fin NUM_NEIGHBOURS → PublicKey × Fr},
      filterChain st l = some st' → st.set = base → st'.set = base →
      ∀ i, (i ∈ l ∨ SlotGood base st i) → SlotGood base st' i := by
  intro l
  induction l with
  | nil =>
    intro st st' base h h1 h2 i hi
    have hst : st = st' := Option.some_inj.mp h
    rcases hi with hmem | hgood
    · cases hmem
    · rw [← hst]; exact hgood
  | cons k l ih =>
    intro st st' base h h1 h2 i hi
    obtain ⟨st₂, hstep, hrest⟩ := filterChain_some_cons h
    by_cases hnull : (st.set k).1 = PK_NULL
    · obtain ⟨hopsn, hst₂⟩ := filterStep_null_inv hnull hstep
      subst hst₂
      refine ih hrest h1 h2 i ?_
      rcases hi with hmem | hgood
      · rcases List.mem_cons.mp hmem with rfl | hmem₂
        · exact Or.inr (Or.inl (by rw [← h1]; exact hnull))
        · exact Or.inl hmem₂
      · exact Or.inr hgood
    · obtain ⟨op, hop, hst₂⟩ := filterStep_pos_inv hnull hstep
      have hsum : (∑ j, (refilter st.set k op.scores j).2) ≠ 0 := by
        intro h0
        have hk2 : st₂.set k = (PK_NULL, 0) := by
          rw [hst₂]
          show (if (∑ j, (refilter st.set k op.scores j).2) = 0
                then Function.update st.set k (PK_NULL, 0) else st.set) k = _
          rw [if_pos h0]
          exact Function.update_same _ _ _
        have hk3 : st'.set k = (PK_NULL, 0) := by
          rcases chain_set_mono hrest k with hck | hck
          · rw [hck, hk2]
          · exact hck
        have : (st.set k).1 = PK_NULL := by
          rw [h1, ← h2, hk3]
        exact hnull this
      have hset₂ : st₂.set = base := by
        rw [hst₂]
        show (if (∑ j, (refilter st.set k op.scores j).2) = 0
              then Function.update st.set k (PK_NULL, 0) else st.set) = base
        rw [if_neg hsum]
        exact h1
      refine ih hrest hset₂ h2 i ?_
      rcases hi with hmem | hgood
      · rcases List.mem_cons.mp hmem with heq | hmem₂
        · subst heq
          refine Or.inr (Or.inr ⟨{ op with scores := refilter st.set i op.scores }, ?_, ?_, ?_⟩)
          · rw [hst₂]
            show Function.update st.ops (st.set i).1
                (some { op with scores := refilter st.set i op.scores }) (base i).1 = _
            rw [← h1]
            exact Function.update_same _ _ _
          · show ScoresOK base i (refilter st.set i op.scores)
            rw [← h1]
            exact refilter_scoresOK_self st.set i op.scores
          · exact hsum
        · exact Or.inl hmem₂
      · rcases hgood with hbn | ⟨opi, hopi, hOK, hsumi⟩
        · exact Or.inr (Or.inl hbn)
        · refine Or.inr (Or.inr ?_)
          by_cases hkey : (base i).1 = (st.set k).1
          · have hopeq : opi = op := by
              rw [hkey] at hopi
              rw [hopi] at hop
              exact Option.some_inj.mp hop
            refine ⟨{ op with scores := refilter st.set k op.scores }, ?_, ?_, ?_⟩
            · rw [hst₂]
              show Function.update st.ops (st.set k).1
                  (some { op with scores := refilter st.set k op.scores }) (base i).1 = _
              rw [hkey]
              exact Function.update_same _ _ _
            · exact refilter_preserves_scoresOK (hopeq ▸ hOK)
            · exact hsum
          · refine ⟨opi, ?_, hOK, hsumi⟩
            rw [hst₂]
            show Function.update st.ops (st.set k).1
                (some { op with scores := refilter st.set k op.scores }) (base i).1 = _
            rw [Function.update_noteq hkey]
            exact hopi

/-- Claim C4 (amended): when one application of the filter pass succeeds and
nullifies no slot (the slot array is unchanged), a second application
succeeds and changes nothing — neither the slot array nor the opinion map. -/
theorem claim_C4 (st st₁ : EigenTrustSet) (h : filterAll st = some st₁)
    (hset : ∀ m, st₁.set m = st.set m) : filterAll st₁ = some st₁ := by
  have h2 : st₁.set = st.set := funext hset
  have hgood : ∀ i, SlotGood st.set st₁ i :=
    fun i => pass1_main h rfl h2 i (Or.inl (List.mem_finRange i))
  have hnullops : ∀ i, (st₁.set i).1 = PK_NULL → st₁.ops PK_NULL = none := by
    intro i hi
    rw [chain_ops_nullkey h]
    exact chain_null_absent h i (List.mem_finRange i) (by rw [← hset i]; exact hi)
  apply chain_of_steps
  intro i _
  by_cases hnull : (st₁.set i).1 = PK_NULL
  · exact filterStep_id_null hnull (hnullops i hnull)
  · rcases hgood i with hbn | ⟨op, hop, hOK, hsum⟩
    · exact absurd (by rw [hset i]; exact hbn) hnull
    · refine filterStep_id hnull ?_ ?_ hsum
      · rw [hset i]
        exact hop
      · rw [h2]
        exact refilter_id_of_scoresOK hOK

/-- Three members `1, 2, 3`: member 1 scores only member 3; member 2 scores
members 1 and 3; member 3 scores only itself.  The first filter pass
nullifies slot 2 only; a second pass then also nullifies slots 0 and 1. -/
def exC4 : EigenTrustSet :=
  { set := exC3scenario.set,
    ops := fun pk =>
      if pk = 1 then
        some (opFromScores (fun j => if j = 2 then ((3 : PublicKey), (700 : Fr)) else (PK_NULL, 0)))
      else if pk = 2 then
        some (opFromScores (fun j =>
          if j = 0 then ((1 : PublicKey), (600 : Fr))
          else if j = 2 then ((3 : PublicKey), (400 : Fr)) else (PK_NULL, 0)))
      else if pk = 3 then
        some (opFromScores (fun j => if j = 2 then ((3 : PublicKey), (1000 : Fr)) else (PK_NULL, 0)))
      else none }

/-- Counterexample to C4 as stated: applying the filter twice to `exC4` does
not equal applying it once — the second pass empties slot 0 (key `1`), which
the first pass had kept. -/
theorem claim_C4_counterexample :
    ((filterAll exC4).bind filterAll).map (fun s => (s.set 0).1)
      ≠ (filterAll exC4).map (fun s => (s.set 0).1) := by decide

/-- Three members with the opinions of `test_add_three_members_with_opinions`,
except that member 1 also gives itself a score of 50, which the filter
zeroes (so the pass rewrites the opinion map but nullifies no slot). -/
def exW4 : EigenTrustSet :=
  { set := exC3scenario.set,
    ops := fun pk =>
      if pk = 1 then
        some (opFromScores (fun j =>
          if j = 0 then ((1 : PublicKey), (50 : Fr))
          else if j = 1 then ((2 : PublicKey), (300 : Fr))
          else if j = 2 then ((3 : PublicKey), (700 : Fr)) else (PK_NULL, 0)))
      else if pk = 2 then
        some (opFromScores (fun j =>
          if j = 0 then ((1 : PublicKey), (600 : Fr))
          else if j = 2 then ((3 : PublicKey), (400 : Fr)) else (PK_NULL, 0)))
      else if pk = 3 then
        some (opFromScores (fun j =>
          if j = 0 then ((1 : PublicKey), (600 : Fr))
          else if j = 1 then ((2 : PublicKey), (400 : Fr)) else (PK_NULL, 0)))
      else none }

/-- The state after one filter pass over `exW4`. -/
def w4St : EigenTrustSet := (filterAll exW4).getD EigenTrustSet.new

/-- Witness for the amended C4: one pass over `exW4` succeeds and keeps the
slot array; the second pass is then the identity. -/
theorem claim_C4_witness : filterAll w4St = some w4St :=
  claim_C4 exW4 w4St rfl (fun m => rfl)
